import Mathlib

/-!
Verification development for the game-asset-mcp server.

This file gives a shallow embedding of the core logic of the repository:
the resilient invoker `retryWithBackoff`, the space-type detector
`detectSpaceType`, the asset store (`generateUniqueFilename`,
`saveFileFromData`, `saveFileFromUrl`), the resource listing and the
`asset://` resource read handler, and the operation tracker `logOperation`.
Each definition is translated directly from the JavaScript source; theorems
below settle the specification claims against these definitions.
-/

namespace GameAssetMcp

/-! ## String primitives modelling JavaScript string operations -/

/-- JS `pre.isPrefixOf l` on char lists; backs `String.prototype.startsWith`. -/
def strStartsWith (s pre : String) : Bool :=
  pre.data.isPrefixOf s.data

/-- Substring containment on char lists (JS `String.prototype.includes`). -/
def listContainsSub (pat : List Char) : List Char → Bool
  | [] => pat.isEmpty
  | c :: rest => pat.isPrefixOf (c :: rest) || listContainsSub pat rest

/-- JS `s.includes(pat)`. -/
def strContains (s pat : String) : Bool :=
  listContainsSub pat.data s.data

/-- JS `String.prototype.toLowerCase` (characterwise; the endpoint
identifiers and variant tokens involved are ASCII). -/
def jsToLower (s : String) : String :=
  String.mk (s.data.map Char.toLower)

/-! ## The GPU-quota regex of `retryWithBackoff` (src/unnamed/part_001:123)

`error.message?.match(/exceeded your GPU quota.*Please retry in (\d+):(\d+):(\d+)/)`

The model reproduces the JS regex semantics for this pattern: the match
starts at the leftmost occurrence of the literal "exceeded your GPU quota"
that is followed, on the same line (`.` does not cross line terminators), by
"Please retry in " and three greedy digit runs separated by colons.  Because
`.*` is greedy, the captured digit runs come from the last such occurrence on
the line. -/

/-- If `pat` is a prefix of `l`, return the remainder after it. -/
def dropPrefixL (pat l : List Char) : Option (List Char) :=
  if pat.isPrefixOf l then some (l.drop pat.length) else none

/-- Numeric value of a digit run (JS `parseInt` on a `\d+` capture). -/
def digitsToNat (ds : List Char) : Nat :=
  ds.foldl (fun a c => a * 10 + (c.toNat - '0'.toNat)) 0

/-- Match `Please retry in (\d+):(\d+):(\d+)` at the start of `l`. -/
def matchRetryAt (l : List Char) : Option (Nat × Nat × Nat) :=
  match dropPrefixL "Please retry in ".data l with
  | none => none
  | some r1 =>
    let d1 := r1.takeWhile Char.isDigit
    if d1.isEmpty then none else
    match r1.drop d1.length with
    | ':' :: r2 =>
      let d2 := r2.takeWhile Char.isDigit
      if d2.isEmpty then none else
      match r2.drop d2.length with
      | ':' :: r3 =>
        let d3 := r3.takeWhile Char.isDigit
        if d3.isEmpty then none else
        some (digitsToNat d1, digitsToNat d2, digitsToNat d3)
      | _ => none
    | _ => none

/-- Last occurrence of the retry pattern in `l` (greedy `.*` backtracks from
the right). -/
def findRetry : List Char → Option (Nat × Nat × Nat)
  | [] => none
  | c :: rest =>
    match findRetry rest with
    | some r => some r
    | none => matchRetryAt (c :: rest)

/-- Truncate at the first line terminator: JS `.` matches no line
terminator (the messages involved are ASCII, so `\n`/`\r` suffice). -/
def lineSeg (l : List Char) : List Char :=
  l.takeWhile fun ch => !(ch == '\n' || ch == '\r')

/-- Scan for the leftmost start of a full quota-pattern match. -/
def gpuQuotaScan : List Char → Option (Nat × Nat × Nat)
  | [] => none
  | c :: rest =>
    match dropPrefixL "exceeded your GPU quota".data (c :: rest) with
    | some after =>
      match findRetry (lineSeg after) with
      | some r => some r
      | none => gpuQuotaScan rest
    | none => gpuQuotaScan rest

/-- The quota-pattern match of src/unnamed/part_001:123, returning the
captured (hours, minutes, seconds) when the message matches. -/
def gpuQuotaMatch (msg : String) : Option (Nat × Nat × Nat) :=
  gpuQuotaScan msg.data

/-! ## The resilient invoker `retryWithBackoff` (src/unnamed/part_001:107-156)

The operation under retry is modelled as a function from the attempt index
to that attempt's outcome.  The trace records every `setTimeout` sleep (ms)
in order, and how the loop ended.  The quota branch (lines 122-147) computes
`waitTime` (line 128) and logs, but then evaluates
`global.operationUpdates[operationId]` (line 136) where `operationId` is not
a bound identifier anywhere in the module scope of part_001; in an ES module
this evaluation throws a `ReferenceError` before the `setTimeout` sleep at
line 147 is reached.  The outcome `refErrorCrash` records this, carrying the
`waitTime` that was computed on line 128. -/

/-- Outcome of one invocation of the wrapped operation. -/
inductive AttemptResult where
  | ok (v : Nat)
  | err (msg : String)
  deriving DecidableEq

/-- How the retry loop ended. -/
inductive RetryOutcome where
  | success (v : Nat)
  /-- `throw error` at line 119: retry budget exhausted, last error rethrown. -/
  | failure (msg : String)
  /-- `ReferenceError: operationId is not defined` thrown at line 136,
  after `waitTime` (ms, line 128) was computed but before any sleep. -/
  | refErrorCrash (waitMs : Nat)
  deriving DecidableEq

/-- Observable trace of one `retryWithBackoff` call. -/
structure RetryTrace where
  sleeps : List Nat
  outcome : RetryOutcome
  deriving DecidableEq

/-- The loop body; `remaining = maxRetries - retries` counts the retries the
budget still allows (the source increments `retries` and throws once
`retries > maxRetries`, before any branch on the kind of error). -/
def retryGo (op : Nat → AttemptResult) : Nat → Nat → Nat → RetryTrace
  | attempt, 0, _ =>
    match op attempt with
    | .ok v => ⟨[], .success v⟩
    | .err msg => ⟨[], .failure msg⟩
  | attempt, r + 1, delay =>
    match op attempt with
    | .ok v => ⟨[], .success v⟩
    | .err msg =>
      match gpuQuotaMatch msg with
      | some (h, m, s) =>
        ⟨[], .refErrorCrash ((h * 3600 + m * 60 + s) * 1000)⟩
      | none =>
        let t := retryGo op (attempt + 1) r (delay * 2)
        ⟨delay :: t.sleeps, t.outcome⟩

/-- `retryWithBackoff(operation, maxRetries, initialDelay)` of
src/unnamed/part_001:107. -/
def retryWithBackoff (op : Nat → AttemptResult)
    (maxRetries : Nat := 3) (initialDelay : Nat := 5000) : RetryTrace :=
  retryGo op 0 maxRetries initialDelay

/-! ## Space-type detection (src/unnamed/part_004:43-222)

`detectSpaceType(client, modelSpace, workDir)` first applies the name
heuristic (lines 56-79), which involves no network traffic; only when it
fails does it probe the endpoint (`client.predict` test call and
`client.view_api` raced against a 30 s timeout, lines 84-107), inspect
`named_endpoints` and `unnamed_endpoints`, re-run the name heuristic
(lines 183-206) and finally throw (lines 210-216); the outer catch
(lines 217-221) rewraps every error.  Introspection is modelled as a value
describing how the probe would have ended; `usedNetwork` records whether
the probe was reached. -/

/-- `SPACE_TYPE` (src/unnamed/part_004:4-9). -/
inductive SpaceType where
  | instantmesh
  | hunyuan3d
  | hunyuan3dMiniTurbo
  | unknown
  deriving DecidableEq

/-- The `view_api` result: the JS code guards each field access, so both
endpoint tables are optional. -/
structure ApiInfo where
  named : Option (List String)
  unnamed : Option (List String)
  deriving DecidableEq

/-- How the live probe would end: the `view_api` promise (raced against the
30 s timeout) either rejects or yields an `ApiInfo`. -/
inductive Introspection where
  | fail (msg : String)
  | ok (info : ApiInfo)
  deriving DecidableEq

/-- Result of detection: the outcome and whether the network probe ran. -/
structure DetectResult where
  outcome : Except String SpaceType
  usedNetwork : Bool

/-- Name heuristic, lines 56-79 (identical to the fallback, lines 183-206):
case-insensitive substring checks, the three mini-turbo tokens first, then
"hunyuan", then "instantmesh". -/
def nameHeuristic (modelSpace : String) : Option SpaceType :=
  let low := jsToLower modelSpace
  if strContains low "hunyuan3d-2mini-turbo" || strContains low "hunyuan3d-2mini" ||
      strContains low "hunyuan3dmini" then some .hunyuan3dMiniTurbo
  else if strContains low "hunyuan" then some .hunyuan3d
  else if strContains low "instantmesh" then some .instantmesh
  else none

/-- Signature-operation check on `named_endpoints` keys (lines 113-143):
exact membership, InstantMesh first, then mini-turbo, then Hunyuan3D. -/
def namedEndpointVariant (es : List String) : Option SpaceType :=
  if es.contains "/check_input_image" || es.contains "/make3d" ||
      es.contains "/generate_mvs" || es.contains "/preprocess" then
    some .instantmesh
  else if es.contains "/on_gen_mode_change" || es.contains "/on_decode_mode_change" ||
      es.contains "/on_export_click" then
    some .hunyuan3dMiniTurbo
  else if es.contains "/shape_generation" || es.contains "/generation_all" then
    some .hunyuan3d
  else none

/-- Signature-operation check on `unnamed_endpoints` keys (lines 147-180):
substring containment via `Array.prototype.some`. -/
def unnamedEndpointVariant (es : List String) : Option SpaceType :=
  if es.any (fun e => strContains e "check_input_image" || strContains e "make3d" ||
      strContains e "generate_mvs" || strContains e "preprocess") then
    some .instantmesh
  else if es.any (fun e => strContains e "on_gen_mode_change" ||
      strContains e "on_decode_mode_change" || strContains e "on_export_click") then
    some .hunyuan3dMiniTurbo
  else if es.any (fun e => strContains e "shape_generation" ||
      strContains e "generation_all") then
    some .hunyuan3d
  else none

/-- The fatal message thrown at lines 210-216 when nothing matched. -/
def noSpaceTypeMsg : String :=
  "Could not determine space type after API analysis. Please ensure your MODEL_SPACE environment variable in .env file is set correctly according to .env.example. You must use one of the following options:\n1. A Hunyuan3D-2 space (containing \"hunyuan\" in the name)\n2. A Hunyuan3D-2mini-Turbo space (containing \"hunyuan3d-2mini\" in the name)\n3. An InstantMesh space (containing \"instantmesh\" in the name)"

/-- The outer catch (line 220) rewraps every error thrown inside. -/
def wrapDetectError (m : String) : String :=
  "Failed to detect space type: " ++ m ++
    ". Please check your MODEL_SPACE environment variable in .env file and ensure it follows the format specified in .env.example."

/-- `detectSpaceType` (src/unnamed/part_004:43-222). -/
def detectSpaceType (modelSpace : String) (probe : Introspection) : DetectResult :=
  match nameHeuristic modelSpace with
  | some t => ⟨.ok t, false⟩
  | none =>
    match probe with
    | .fail m => ⟨.error (wrapDetectError m), true⟩
    | .ok info =>
      match (match info.named with
             | some es => namedEndpointVariant es
             | none => none) with
      | some t => ⟨.ok t, true⟩
      | none =>
        match (match info.unnamed with
               | some es => unnamedEndpointVariant es
               | none => none) with
        | some t => ⟨.ok t, true⟩
        | none =>
          match nameHeuristic modelSpace with
          | some t => ⟨.ok t, true⟩
          | none => ⟨.error (wrapDetectError noSpaceTypeMsg), true⟩

/-! ## POSIX path model for `path.join` and the `startsWith` guards

The asset store and the resource read handler build file paths with Node's
`path.join(assetsDir, name)` and guard them with
`filePath.startsWith(assetsDir)`.  `assetsDir` is absolute at runtime
(`path.join(workDir, "assets")`), so the model implements `path.join` for
absolute POSIX paths: split on `/`, process `.` / `..` / empty segments
(`..` above the root vanishes, as in Node's normalization of absolute
paths), and rejoin. -/

/-- JS `s.split(sep)` on char lists (never returns an empty list). -/
def splitCh (sep : Char) : List Char → List (List Char)
  | [] => [[]]
  | c :: rest =>
    if c = sep then [] :: splitCh sep rest
    else
      match splitCh sep rest with
      | s :: ss => (c :: s) :: ss
      | [] => [[c]]

/-- One normalization step: drop empty and `.` segments, let `..` pop the
previous segment (vanishing at the root), keep everything else. -/
def normStep (acc : List (List Char)) (seg : List Char) : List (List Char) :=
  if seg = [] || seg = ['.'] then acc
  else if seg = ['.', '.'] then acc.dropLast
  else acc ++ [seg]

/-- Normalize a segment list of an absolute path. -/
def normSegs (segs : List (List Char)) : List (List Char) :=
  segs.foldl normStep []

/-- Join normalized segments with `/`. -/
def joinSegs : List (List Char) → List Char
  | [] => []
  | [a] => a
  | a :: rest => a ++ '/' :: joinSegs rest

/-- Render an absolute path from normalized segments (`[]` is the root). -/
def renderAbs (segs : List (List Char)) : List Char :=
  '/' :: joinSegs segs

/-- Node `path.join(a, b)` for an absolute `a`. -/
def pathJoin (a b : String) : String :=
  String.mk (renderAbs (normSegs (splitCh '/' a.data ++ splitCh '/' b.data)))

/-- `dir` is already in normal absolute form (true of the runtime
`assetsDir`, itself produced by `path.join`). -/
def isNormalAbs (dir : String) : Bool :=
  String.mk (renderAbs (normSegs (splitCh '/' dir.data))) == dir

/-- Genuine path containment: `dir` is a strict ancestor directory of `p`.
(The root directory `"/"` is excluded by the callers' hypotheses; the
runtime store root `workDir/assets` is never the root.) -/
def isInsideDir (p dir : String) : Bool :=
  strStartsWith p (dir ++ "/")

/-! ## Asset store (src/unnamed/part_001:629-790)

`generateUniqueFilename(prefix, ext, toolName)` (lines 630-634) interpolates
`Date.now()` and 4 random bytes in hex; both are parameters of the model.
`saveFileFromData` (lines 689-790) generates the filename, joins it to
`assetsDir`, applies the `startsWith` security check before any write, then
every data-shape branch (lines 702-760) writes to that same `filePath`, and
the function returns `filePath` together with the bare resource URI
`asset://filename` (lines 762-766).  `saveFileFromUrl` (lines 656-686)
first validates the URL, then performs the same filename/guard/write/return
steps. -/

/-- `generateUniqueFilename(prefix, ext, toolName)` (part_001:630-634). -/
def generateUniqueFilename (pfx ext toolName : String) (timestamp : Nat)
    (hex : String) : String :=
  pfx ++ "_" ++ toolName ++ "_" ++ toString timestamp ++ "_" ++ hex ++ "." ++ ext

/-- How a persist call ends. -/
inductive SaveOutcome where
  /-- `"Invalid URL provided"` (part_001:657-659). -/
  | invalidUrl
  /-- `"Invalid file path - security violation"` thrown before any write. -/
  | securityViolation
  /-- A write to `filePath` occurred and the call returned
  `{filePath, resourceUri}`. -/
  | saved (filePath resourceUri : String)
  deriving DecidableEq

/-- `saveFileFromData(data, prefix, ext, toolName)` (part_001:689-790). -/
def saveFileFromData (assetsDir pfx ext toolName : String) (timestamp : Nat)
    (hex : String) : SaveOutcome :=
  let filename := generateUniqueFilename pfx ext toolName timestamp hex
  let filePath := pathJoin assetsDir filename
  if !strStartsWith filePath assetsDir then .securityViolation
  else .saved filePath ("asset://" ++ filename)

/-- `saveFileFromUrl(url, prefix, ext, toolName)` (part_001:656-686). -/
def saveFileFromUrl (assetsDir url pfx ext toolName : String) (timestamp : Nat)
    (hex : String) : SaveOutcome :=
  if !strStartsWith url "http" then .invalidUrl
  else
    let filename := generateUniqueFilename pfx ext toolName timestamp hex
    let filePath := pathJoin assetsDir filename
    if !strStartsWith filePath assetsDir then .securityViolation
    else .saved filePath ("asset://" ++ filename)

/-! ## Resource listing (src/unnamed/part_001:793-845)

Each stored file's record derives `assetType = name.split('_')[0] ||
'unknown'` and `toolOrigin = name.split('_')[1] || 'unknown'` (lines
816-818), builds the URI `asset://assetType/name` (line 821), and the
optional type filter keeps records with `assetType === typeFilter`
(lines 836-838). -/

/-- JS `s.split(sep)` at the String level. -/
def splitChS (sep : Char) (s : String) : List String :=
  (splitCh sep s.data).map String.mk

/-- JS `x || dflt` where `x` is a possibly-missing string: `undefined` and
`""` are falsy. -/
def jsStringOr (v : Option String) (dflt : String) : String :=
  match v with
  | none => dflt
  | some s => if s = "" then dflt else s

/-- `file.name.split('_')[0] || 'unknown'` (part_001:817). -/
def derivedAssetType (fname : String) : String :=
  jsStringOr ((splitChS '_' fname).get? 0) "unknown"

/-- `file.name.split('_')[1] || 'unknown'` (part_001:818). -/
def derivedToolOrigin (fname : String) : String :=
  jsStringOr ((splitChS '_' fname).get? 1) "unknown"

/-- The listing record (uri, name, assetType, toolOrigin; the stat-derived
fields carry no logic). -/
structure ResourceEntry where
  uri : String
  name : String
  assetType : String
  toolOrigin : String
  deriving DecidableEq

/-- The record built for one directory entry (part_001:813-831). -/
def resourceEntryOf (n : String) : ResourceEntry :=
  ⟨"asset://" ++ derivedAssetType n ++ "/" ++ n, n,
    derivedAssetType n, derivedToolOrigin n⟩

/-- The `ListResources` handler over the store directory listing
(part_001:809-840). -/
def listResources (files : List String) (typeFilter : Option String) :
    List ResourceEntry :=
  let rs := files.map resourceEntryOf
  match typeFilter with
  | some t => rs.filter (fun r => r.assetType == t)
  | none => rs

/-! ## Operation tracker (src/unnamed/part_001:79-104 and
src/src/workflows/index.js:75-96)

`logOperation` pushes one event onto `global.operationUpdates[operationId]`
and, when the array length exceeds 100, `shift()`s the oldest entry.  The
trimming is agnostic to the event payload. -/

/-- One `logOperation` append: push, then drop the oldest entry if the log
exceeds 100 events. -/
def logOperation {α : Type} (lg : List α) (e : α) : List α :=
  let lg2 := lg ++ [e]
  if lg2.length > 100 then lg2.drop 1 else lg2

/-- The event log after a sequence of `logOperation` calls on one
operation id, starting from the empty log. -/
def eventLog {α : Type} (events : List α) : List α :=
  events.foldl logOperation []

/-! ## Resource read handler (src/unnamed/part_001:637-644, 848-901)

`parseResourceUri` applies `/^asset:\/\/(?:([^\/]+)\/)?(.+)$/`: the optional
group greedily captures a first `/`-free segment when one is followed by `/`
and at least one more character; otherwise the whole remainder is the id.
The handler (lines 852-898) rebuilds a combined filename, keeps only its
last `/`-separated segment, joins it to `assetsDir`, and applies the
`startsWith` security check before `fs.stat`/`fs.readFile`. -/

/-- The part of `parseResourceUri` after the `asset://` scheme: the regex
`(?:([^\/]+)\/)?(.+)` matches the optional group when a nonempty `/`-free
first segment is followed by `/` and at least one more character; otherwise
the whole remainder is the id. -/
def parseAssetPath : List Char → Option (Option String × String)
  | [] => none
  | c :: cs =>
    let rest := c :: cs
    let seg := rest.takeWhile (fun ch => ch != '/')
    if seg.isEmpty then some (none, String.mk rest)
    else
      match rest.drop seg.length with
      | [] => some (none, String.mk rest)
      | sepc :: tail =>
        if sepc = '/' then
          if tail.isEmpty then some (none, String.mk rest)
          else some (some (String.mk seg), String.mk tail)
        else some (none, String.mk rest)

/-- `parseResourceUri(uri)` (part_001:637-644), applying
`/^asset:\/\/(?:([^\/]+)\/)?(.+)$/`. -/
def parseResourceUri (uri : String) : Option (Option String × String) :=
  if strStartsWith uri "asset://" then parseAssetPath (uri.data.drop 8)
  else none

/-- The combined filename of part_001:862-864. -/
def readFilename (t : Option String) (id : String) : String :=
  match t with
  | some ty => if strContains id "/" then id else ty ++ "/" ++ id
  | none => id

/-- `l.split(sep).pop()` — the last `sep`-separated segment. -/
def lastSegOf (sep : Char) (l : List Char) : List Char :=
  (splitCh sep l).getLastD []

/-- `filename.includes('/') ? filename.split('/').pop() : filename`
(part_001:867). -/
def actualFilename (fn : String) : String :=
  if strContains fn "/" then String.mk (lastSegOf '/' fn.data) else fn

/-- How a resource read ends. -/
inductive ReadOutcome where
  /-- `"Unsupported URI scheme"` (part_001:900). -/
  | unsupportedScheme
  /-- `"Invalid resource URI format"` (part_001:857). -/
  | invalidUriFormat
  /-- `"Invalid resource path - security violation"` (part_001:872),
  thrown before any filesystem access. -/
  | securityViolation
  /-- The handler proceeds to `fs.stat`/`fs.readFile` at `path`. -/
  | access (path : String)
  deriving DecidableEq

/-- The `ReadResource` handler (part_001:848-901). -/
def readResource (assetsDir uri : String) : ReadOutcome :=
  if strStartsWith uri "asset://" then
    match parseResourceUri uri with
    | none => .invalidUriFormat
    | some (t, id) =>
      let fp := pathJoin assetsDir (actualFilename (readFilename t id))
      if !strStartsWith fp assetsDir then .securityViolation
      else .access fp
  else .unsupportedScheme

/-- The sleep list of the retry loop never exceeds the remaining budget. -/
theorem retryGo_sleeps_length_le (op : Nat → AttemptResult) :
    ∀ r a d, (retryGo op a r d).sleeps.length ≤ r := by
  intro r
  induction r with
  | zero =>
    intro a d
    cases hop : op a <;> simp [retryGo, hop]
  | succ r ih =>
    intro a d
    cases hop : op a with
    | ok v => simp [retryGo, hop]
    | err msg =>
      cases hq : gpuQuotaMatch msg with
      | none =>
        simp only [retryGo, hop, hq]
        have := ih (a + 1) (d * 2)
        simpa using Nat.succ_le_succ this
      | some t =>
        obtain ⟨h, m, s⟩ := t
        simp [retryGo, hop, hq]

/-- When every attempt up to the budget fails and none of the first
`r` failures is a quota error, the loop sleeps `d·2^k` before the
(k+1)-th retry and finally rethrows the last error. -/
theorem retryGo_allFail (msgs : Nat → String) :
    ∀ r a d, (∀ i, i < r → gpuQuotaMatch (msgs (a + i)) = none) →
    retryGo (fun i => .err (msgs i)) a r d =
      ⟨(List.range r).map (fun k => d * 2 ^ k), .failure (msgs (a + r))⟩ := by
  intro r
  induction r with
  | zero =>
    intro a d _
    simp [retryGo]
  | succ r ih =>
    intro a d h
    have h0 : gpuQuotaMatch (msgs a) = none := by
      have := h 0 (Nat.succ_pos r)
      simpa using this
    have hrec := ih (a + 1) (d * 2) (fun i hi => by
      have := h (i + 1) (Nat.succ_lt_succ hi)
      simpa [Nat.add_assoc, Nat.add_comm 1 i] using this)
    have hsleeps : (List.range (r + 1)).map (fun k => d * 2 ^ k) =
        d :: (List.range r).map (fun k => d * 2 * 2 ^ k) := by
      rw [List.range_succ_eq_map, List.map_cons, List.map_map]
      refine congrArg₂ List.cons (by simp) ?_
      refine List.map_congr_left (fun k _ => ?_)
      simp only [Function.comp_apply, Nat.pow_succ]
      ring
    simp only [retryGo, h0, hrec, hsleeps]
    have hidx : a + 1 + r = a + (r + 1) := by omega
    rw [hidx]

/-- C2: for every operation and every non-quota failure sequence, the Nth
retry is preceded by a sleep of `initialDelay * 2^(N-1)` ms (the (N-1)-th
element of the sleep trace), the retry budget is finite (never more than
`maxRetries` sleeps, whatever the failures) and shared: after `maxRetries`
failed retries the next failure — quota-matching or not — is rethrown
unchanged as the last underlying error. -/
theorem retryWithBackoff_backoff_c2 :
    (∀ op maxRetries d,
      (retryWithBackoff op maxRetries d).sleeps.length ≤ maxRetries) ∧
    (∀ (msgs : Nat → String) maxRetries d,
      (∀ i, i < maxRetries → gpuQuotaMatch (msgs i) = none) →
      retryWithBackoff (fun i => .err (msgs i)) maxRetries d =
        ⟨(List.range maxRetries).map (fun k => d * 2 ^ k),
          .failure (msgs maxRetries)⟩) := by
  constructor
  · intro op maxRetries d
    exact retryGo_sleeps_length_le op maxRetries 0 d
  · intro msgs maxRetries d h
    have := retryGo_allFail msgs maxRetries 0 d (fun i hi => by
      simpa using h i hi)
    simpa [retryWithBackoff] using this

/-- Witness for C2 at a concrete failing operation. -/
theorem retryWithBackoff_backoff_c2_witness :
    (retryWithBackoff (fun _ => .err "ECONNRESET") 3 5000).sleeps.length ≤ 3 ∧
    retryWithBackoff (fun _ => .err "ECONNRESET") 3 5000 =
      ⟨[5000, 10000, 20000], .failure "ECONNRESET"⟩ := by
  refine ⟨retryWithBackoff_backoff_c2.1 _ 3 5000, ?_⟩
  have h := retryWithBackoff_backoff_c2.2 (fun _ => "ECONNRESET") 3 5000
    (fun i _ => by rfl)
  rw [h]
  rfl

/-- C1: the quota branch is dead on arrival.  On the message
`"...Please retry in 0:01:30..."` the regex matches and captures (0,1,30);
the intended sleep is `(0·3600+1·60+30)·1000 + 1000 = 91000` ms; but the
invoker crashes with a `ReferenceError` (unbound `operationId`,
src/unnamed/part_001:136) after computing `waitTime = 90000` and before any
sleep: the trace shows no sleep and no retry. -/
theorem retryWithBackoff_quota_c1 :
    gpuQuotaMatch
      "You have exceeded your GPU quota (60s requested). Please retry in 0:01:30" =
      some (0, 1, 30) ∧
    (0 * 3600 + 1 * 60 + 30) * 1000 + 1000 = 91000 ∧
    retryWithBackoff
      (fun _ => .err
        "You have exceeded your GPU quota (60s requested). Please retry in 0:01:30")
      3 5000 =
      ⟨[], .refErrorCrash 90000⟩ := by
  exact ⟨by rfl, by rfl, by rfl⟩

/-- C3: whenever the endpoint identifier contains a known variant token
(case-insensitively), detection resolves the variant from the name alone —
the probe value is irrelevant and `usedNetwork` is `false` — and the more
specific mini-turbo tokens win over the substring "hunyuan" they contain. -/
theorem detectSpaceType_name_heuristic_c3 :
    ∀ (s : String) (probe : Introspection),
      (strContains (jsToLower s) "hunyuan3d-2mini-turbo" = true →
        detectSpaceType s probe = ⟨.ok .hunyuan3dMiniTurbo, false⟩) ∧
      (strContains (jsToLower s) "hunyuan" = true →
        strContains (jsToLower s) "hunyuan3d-2mini-turbo" = false →
        strContains (jsToLower s) "hunyuan3d-2mini" = false →
        strContains (jsToLower s) "hunyuan3dmini" = false →
        detectSpaceType s probe = ⟨.ok .hunyuan3d, false⟩) ∧
      (strContains (jsToLower s) "instantmesh" = true →
        strContains (jsToLower s) "hunyuan" = false →
        strContains (jsToLower s) "hunyuan3d-2mini-turbo" = false →
        strContains (jsToLower s) "hunyuan3d-2mini" = false →
        strContains (jsToLower s) "hunyuan3dmini" = false →
        detectSpaceType s probe = ⟨.ok .instantmesh, false⟩) := by
  intro s probe
  refine ⟨fun h1 => ?_, fun h1 h2 h3 h4 => ?_, fun h1 h2 h3 h4 h5 => ?_⟩
  · simp [detectSpaceType, nameHeuristic, h1]
  · simp [detectSpaceType, nameHeuristic, h1, h2, h3, h4]
  · simp [detectSpaceType, nameHeuristic, h1, h2, h3, h4, h5]

/-- Witness for C3 on the three space names the repository documents. -/
theorem detectSpaceType_name_heuristic_c3_witness :
    detectSpaceType "tencent/Hunyuan3D-2mini-Turbo" (.fail "t") =
      ⟨.ok .hunyuan3dMiniTurbo, false⟩ ∧
    detectSpaceType "tencent/Hunyuan3D-2" (.fail "t") = ⟨.ok .hunyuan3d, false⟩ ∧
    detectSpaceType "TencentARC/InstantMesh" (.fail "t") =
      ⟨.ok .instantmesh, false⟩ := by
  refine ⟨(detectSpaceType_name_heuristic_c3 _ _).1 (by rfl),
    (detectSpaceType_name_heuristic_c3 _ _).2.1 (by rfl) (by rfl) (by rfl) (by rfl),
    (detectSpaceType_name_heuristic_c3 _ _).2.2 (by rfl) (by rfl) (by rfl) (by rfl)
      (by rfl)⟩

/-- C4: when the name matches no variant token and the live probe fails —
or succeeds without exposing any recognizable variant-specific operation —
detection ends in a descriptive error; there is no silent default
variant. -/
theorem detectSpaceType_no_default_c4 :
    (∀ (s m : String), nameHeuristic s = none →
      detectSpaceType s (.fail m) = ⟨.error (wrapDetectError m), true⟩) ∧
    (∀ (s : String) (info : ApiInfo), nameHeuristic s = none →
      (∀ es, info.named = some es → namedEndpointVariant es = none) →
      (∀ es, info.unnamed = some es → unnamedEndpointVariant es = none) →
      detectSpaceType s (.ok info) =
        ⟨.error (wrapDetectError noSpaceTypeMsg), true⟩) := by
  constructor
  · intro s m hname
    simp [detectSpaceType, hname]
  · intro s info hname hnamed hunnamed
    cases info with
    | mk named unnamed =>
      cases named with
      | none =>
        cases unnamed with
        | none => simp [detectSpaceType, hname]
        | some es => simp [detectSpaceType, hname, hunnamed es rfl]
      | some es =>
        cases unnamed with
        | none => simp [detectSpaceType, hname, hnamed es rfl]
        | some es2 =>
          simp [detectSpaceType, hname, hnamed es rfl, hunnamed es2 rfl]

/-- Witness for C4: an unrecognizable space name with a timed-out probe and
with an empty endpoint manifest. -/
theorem detectSpaceType_no_default_c4_witness :
    detectSpaceType "owner/myspace" (.fail "view_api call timed out after 30 seconds") =
      ⟨.error (wrapDetectError "view_api call timed out after 30 seconds"), true⟩ ∧
    detectSpaceType "owner/myspace" (.ok ⟨some [], some []⟩) =
      ⟨.error (wrapDetectError noSpaceTypeMsg), true⟩ := by
  refine ⟨detectSpaceType_no_default_c4.1 "owner/myspace" _ (by rfl),
    detectSpaceType_no_default_c4.2 "owner/myspace" ⟨some [], some []⟩ (by rfl)
      ?_ ?_⟩
  · intro es h
    cases h
    rfl
  · intro es h
    cases h
    rfl

/-- Splitting distributes over the first separator when the left part is
separator-free. -/
theorem splitCh_append_sep (sep : Char) (a b : List Char) (h : sep ∉ a) :
    splitCh sep (a ++ sep :: b) = a :: splitCh sep b := by
  induction a with
  | nil => simp [splitCh]
  | cons c cs ih =>
    have hc : ¬(c = sep) := by
      rintro rfl
      exact h (List.mem_cons_self _ _)
    have hcs : sep ∉ cs := fun hm => h (List.mem_cons_of_mem _ hm)
    simp [splitCh, hc, ih hcs]

/-- A separator-free list splits into itself. -/
theorem splitCh_of_not_mem {sep : Char} {l : List Char} (h : sep ∉ l) :
    splitCh sep l = [l] := by
  induction l with
  | nil => rfl
  | cons c cs ih =>
    have hc : ¬(c = sep) := by
      rintro rfl
      exact h (List.mem_cons_self _ _)
    have hcs : sep ∉ cs := fun hm => h (List.mem_cons_of_mem _ hm)
    simp [splitCh, hc, ih hcs]

/-- C5 counterexample: a persist call whose resolved path escapes the store
root `/work/assets` into the sibling directory `/work/assets2` passes the
`startsWith` security check and is written, because the sibling path shares
the root as a string prefix. -/
theorem saveFileFromData_escape_c5_counterexample :
    saveFileFromData "/work/assets" "../assets2/evil" "png" "tool" 1 "ab" =
      .saved "/work/assets2/evil_tool_1_ab.png"
        "asset://../assets2/evil_tool_1_ab.png" ∧
    isInsideDir "/work/assets2/evil_tool_1_ab.png" "/work/assets" = false := by
  exact ⟨rfl, rfl⟩

/-- C5 amended: before any write, both persist functions verify that the
joined path has the store root as a *string prefix* and throw the
security-violation error when it does not; every written path therefore has
the root as a string prefix (but a sibling directory sharing that prefix,
such as `assets2` next to `assets`, is not rejected). -/
theorem saveFile_guard_c5 :
    ∀ (dir pfx ext tool : String) (ts : Nat) (hex : String),
      (strStartsWith (pathJoin dir (generateUniqueFilename pfx ext tool ts hex))
          dir = false →
        saveFileFromData dir pfx ext tool ts hex = .securityViolation) ∧
      (∀ p u, saveFileFromData dir pfx ext tool ts hex = .saved p u →
        strStartsWith p dir = true ∧
        p = pathJoin dir (generateUniqueFilename pfx ext tool ts hex)) ∧
      (∀ url, strStartsWith url "http" = true →
        strStartsWith (pathJoin dir (generateUniqueFilename pfx ext tool ts hex))
            dir = false →
        saveFileFromUrl dir url pfx ext tool ts hex = .securityViolation) := by
  intro dir pfx ext tool ts hex
  refine ⟨fun hfail => ?_, fun p u hsat => ?_, fun url hurl hfail => ?_⟩
  · simp [saveFileFromData, hfail]
  · by_cases hchk : strStartsWith
        (pathJoin dir (generateUniqueFilename pfx ext tool ts hex)) dir = true
    · simp only [saveFileFromData, hchk, Bool.not_true, Bool.false_eq_true,
        if_false, SaveOutcome.saved.injEq] at hsat
      exact ⟨hsat.1 ▸ hchk, hsat.1.symm⟩
    · rw [Bool.not_eq_true] at hchk
      simp [saveFileFromData, hchk] at hsat
  · simp [saveFileFromUrl, hurl, hfail]

/-- Witness for C5 (amended): a `..`-laden name that leaves the prefix is
rejected; an ordinary name is written inside the root; a URL persist with
the escaping name is rejected too. -/
theorem saveFile_guard_c5_witness :
    saveFileFromData "/w/assets" "../../x" "png" "t" 1 "ab" =
      .securityViolation ∧
    (strStartsWith "/w/assets/3d_model_t_1_ab.glb" "/w/assets" = true ∧
      "/w/assets/3d_model_t_1_ab.glb" =
        pathJoin "/w/assets" (generateUniqueFilename "3d_model" "glb" "t" 1 "ab")) ∧
    saveFileFromUrl "/w/assets" "https://ex.com/f" "../../x" "png" "t" 1 "ab" =
      .securityViolation := by
  refine ⟨(saveFile_guard_c5 "/w/assets" "../../x" "png" "t" 1 "ab").1 rfl,
    (saveFile_guard_c5 "/w/assets" "3d_model" "glb" "t" 1 "ab").2.1
      "/w/assets/3d_model_t_1_ab.glb" "asset://3d_model_t_1_ab.glb" rfl,
    (saveFile_guard_c5 "/w/assets" "../../x" "png" "t" 1 "ab").2.2
      "https://ex.com/f" rfl rfl⟩

/-- C9 counterexample: a successful persist with the known type tag
`3d_model` returns the bare URI `asset://{filename}`, not the type-prefixed
`asset://3d_model/{filename}`. -/
theorem saveFileFromData_uri_c9_counterexample :
    saveFileFromData "/w/assets" "3d_model" "glb" "generate_3d_asset" 5 "ab" =
      .saved "/w/assets/3d_model_generate_3d_asset_5_ab.glb"
        "asset://3d_model_generate_3d_asset_5_ab.glb" ∧
    "asset://3d_model_generate_3d_asset_5_ab.glb" ≠
      "asset://3d_model/3d_model_generate_3d_asset_5_ab.glb" := by
  exact ⟨rfl, by decide⟩

/-- C9 amended: persist always returns the bare form `asset://{filename}`,
whatever the type tag; the type-prefixed form
`asset://{derivedType}/{filename}` is produced only by the resource-listing
records. -/
theorem saveFileFromData_uri_c9 :
    (∀ (dir pfx ext tool : String) (ts : Nat) (hex p u : String),
      saveFileFromData dir pfx ext tool ts hex = .saved p u →
      u = "asset://" ++ generateUniqueFilename pfx ext tool ts hex) ∧
    (∀ n, (resourceEntryOf n).uri =
      "asset://" ++ derivedAssetType n ++ "/" ++ n) := by
  constructor
  · intro dir pfx ext tool ts hex p u hsat
    by_cases hchk : strStartsWith
        (pathJoin dir (generateUniqueFilename pfx ext tool ts hex)) dir = true
    · simp only [saveFileFromData, hchk, Bool.not_true, Bool.false_eq_true,
        if_false, SaveOutcome.saved.injEq] at hsat
      exact hsat.2.symm
    · rw [Bool.not_eq_true] at hchk
      simp [saveFileFromData, hchk] at hsat
  · intro n
    rfl

/-- Witness for C9 (amended) at the OBJ-model persist call site. -/
theorem saveFileFromData_uri_c9_witness :
    "asset://3d_model_generate_3d_asset_7_beef.obj" =
      "asset://" ++ generateUniqueFilename "3d_model" "obj" "generate_3d_asset" 7 "beef" ∧
    (resourceEntryOf "3d_model_generate_3d_asset_7_beef.obj").uri =
      "asset://" ++ derivedAssetType "3d_model_generate_3d_asset_7_beef.obj" ++
        "/" ++ "3d_model_generate_3d_asset_7_beef.obj" := by
  exact ⟨saveFileFromData_uri_c9.1 "/w/assets" "3d_model" "obj" "generate_3d_asset"
    7 "beef" "/w/assets/3d_model_generate_3d_asset_7_beef.obj"
    "asset://3d_model_generate_3d_asset_7_beef.obj" rfl,
    saveFileFromData_uri_c9.2 "3d_model_generate_3d_asset_7_beef.obj"⟩

/-- C7 counterexample: an asset persisted with prefix `3d_model` and origin
`generate_3d_asset` gets derived assetType `3d` (the first `_`-separated
token), not `3d_model`, and derived toolOrigin `model`, not
`generate_3d_asset`; consequently the listing filtered by `3d_model`
excludes it. -/
theorem listResources_derive_c7_counterexample :
    derivedAssetType
      (generateUniqueFilename "3d_model" "glb" "generate_3d_asset" 5 "ab") = "3d" ∧
    ("3d" : String) ≠ "3d_model" ∧
    derivedToolOrigin
      (generateUniqueFilename "3d_model" "glb" "generate_3d_asset" 5 "ab") =
      "model" ∧
    listResources
      [generateUniqueFilename "3d_model" "glb" "generate_3d_asset" 5 "ab"]
      (some "3d_model") = [] := by
  exact ⟨rfl, by decide, rfl, rfl⟩

/-- C7 amended: the listing derives assetType as the *first* and toolOrigin
as the *second* `_`-separated token of the filename — equal to the persist
prefix and origin tag only when those contain no underscore — and the type
filter returns exactly the records whose derived assetType equals the
filter. -/
theorem listResources_filter_c7 :
    (∀ (p ext tool : String) (ts : Nat) (hex : String), p ≠ "" → tool ≠ "" →
      '_' ∉ p.data → '_' ∉ tool.data →
      derivedAssetType (generateUniqueFilename p ext tool ts hex) = p ∧
      derivedToolOrigin (generateUniqueFilename p ext tool ts hex) = tool) ∧
    (∀ files t r, r ∈ listResources files (some t) ↔
      r ∈ listResources files none ∧ r.assetType = t) := by
  constructor
  · intro p ext tool ts hex hp ht hpu htu
    have hmk : ∀ s : String, String.mk s.data = s := fun _ => rfl
    have hdata : (generateUniqueFilename p ext tool ts hex).data =
        p.data ++ '_' :: (tool.data ++ '_' ::
          ((toString ts).data ++ '_' :: (hex.data ++ '.' :: ext.data))) := by
      simp [generateUniqueFilename]
    have hsplit : splitCh '_' (generateUniqueFilename p ext tool ts hex).data =
        p.data :: tool.data ::
          splitCh '_' ((toString ts).data ++ '_' :: (hex.data ++ '.' :: ext.data)) := by
      rw [hdata, splitCh_append_sep _ _ _ hpu, splitCh_append_sep _ _ _ htu]
    constructor
    · simp [derivedAssetType, splitChS, hsplit, jsStringOr, hmk, hp]
    · simp [derivedToolOrigin, splitChS, hsplit, jsStringOr, hmk, ht]
  · intro files t r
    simp [listResources, List.mem_filter, beq_iff_eq]

/-- Witness for C7 (amended) at an underscore-free prefix/origin pair. -/
theorem listResources_filter_c7_witness :
    (derivedAssetType (generateUniqueFilename "img" "png" "tool" 3 "ab") = "img" ∧
      derivedToolOrigin (generateUniqueFilename "img" "png" "tool" 3 "ab") =
        "tool") ∧
    (resourceEntryOf "img_tool_3_ab.png" ∈
        listResources ["img_tool_3_ab.png"] (some "img") ↔
      resourceEntryOf "img_tool_3_ab.png" ∈
          listResources ["img_tool_3_ab.png"] none ∧
        (resourceEntryOf "img_tool_3_ab.png").assetType = "img") := by
  exact ⟨listResources_filter_c7.1 "img" "png" "tool" 3 "ab" (by decide)
      (by decide) (by decide) (by decide),
    listResources_filter_c7.2 ["img_tool_3_ab.png"] "img"
      (resourceEntryOf "img_tool_3_ab.png")⟩

/-- The event log after any call sequence keeps exactly the last 100
events. -/
theorem eventLog_eq_drop {α : Type} (es : List α) :
    eventLog es = es.drop (es.length - 100) := by
  induction es using List.reverseRecOn with
  | nil => rfl
  | append_singleton es e ih =>
    have step : eventLog (es ++ [e]) = logOperation (eventLog es) e := by
      simp [eventLog, List.foldl_append]
    rw [step, ih, logOperation]
    by_cases h : 100 ≤ es.length
    · have hlen : (es.drop (es.length - 100) ++ [e]).length = 101 := by
        simp [List.length_drop]
        omega
      rw [if_pos (by omega)]
      have h1 : (1 : Nat) ≤ (es.drop (es.length - 100)).length := by
        simp [List.length_drop]
        omega
      rw [List.drop_append_of_le_length h1, List.drop_drop]
      have h2 : (es ++ [e]).length - 100 = es.length - 100 + 1 := by
        simp
        omega
      rw [h2, List.drop_append_of_le_length (by omega)]
    · have hlen : (es.drop (es.length - 100) ++ [e]).length = es.length + 1 := by
        simp [List.length_drop]
        omega
      rw [if_neg (by omega)]
      have h0 : es.length - 100 = 0 := by omega
      have h0' : (es ++ [e]).length - 100 = 0 := by simp; omega
      rw [h0, h0']
      simp

/-- C8: the tracker's event log never exceeds 100 entries, and after 101
`record()` calls on one operation id exactly 100 events remain, the dropped
one being the earliest appended. -/
theorem logOperation_cap_c8 :
    (∀ (es : List Nat), (eventLog es).length ≤ 100) ∧
    (∀ (es : List Nat), es.length = 101 →
      eventLog es = es.drop 1 ∧ (eventLog es).length = 100) := by
  constructor
  · intro es
    rw [eventLog_eq_drop, List.length_drop]
    omega
  · intro es h
    have h1 : es.length - 100 = 1 := by omega
    rw [eventLog_eq_drop, h1]
    exact ⟨rfl, by rw [List.length_drop]; omega⟩

/-- Witness for C8: 101 recorded events keep exactly the last 100. -/
theorem logOperation_cap_c8_witness :
    (eventLog (List.range 101)).length ≤ 100 ∧
    eventLog (List.range 101) = (List.range 101).drop 1 ∧
    (eventLog (List.range 101)).length = 100 := by
  refine ⟨logOperation_cap_c8.1 _, ?_, ?_⟩
  · exact (logOperation_cap_c8.2 (List.range 101) (by simp)).1
  · exact (logOperation_cap_c8.2 (List.range 101) (by simp)).2

/-- A list all of whose elements satisfy `p` is its own `takeWhile`. -/
theorem takeWhile_all {p : Char → Bool} :
    ∀ {l : List Char}, (∀ x ∈ l, p x = true) → l.takeWhile p = l := by
  intro l
  induction l with
  | nil => intro _; rfl
  | cons c cs ih =>
    intro h
    have hc := h c (List.mem_cons_self _ _)
    simp [List.takeWhile_cons, hc,
      ih (fun x hx => h x (List.mem_cons_of_mem _ hx))]

/-- `takeWhile` stops exactly at the first failing element. -/
theorem takeWhile_append_sep {p : Char → Bool} (a : List Char) (c : Char)
    (b : List Char) (ha : ∀ x ∈ a, p x = true) (hc : p c = false) :
    (a ++ c :: b).takeWhile p = a := by
  induction a with
  | nil => simp [List.takeWhile_cons, hc]
  | cons d ds ih =>
    have hd := ha d (List.mem_cons_self _ _)
    simp [List.takeWhile_cons, hd,
      ih (fun x hx => ha x (List.mem_cons_of_mem _ hx))]

/-- `splitCh` never returns the empty list. -/
theorem splitCh_ne_nil (sep : Char) : ∀ l, splitCh sep l ≠ [] := by
  intro l
  cases l with
  | nil => simp [splitCh]
  | cons c rest =>
    by_cases hc : c = sep
    · simp [splitCh, hc]
    · simp only [splitCh, if_neg hc]
      cases hsp : splitCh sep rest with
      | nil => simp
      | cons s ss => simp

/-- `getLastD` of a nonempty list ignores the default. -/
theorem getLastD_of_ne_nil {α : Type} :
    ∀ {l : List α}, l ≠ [] → ∀ d₁ d₂ : α, l.getLastD d₁ = l.getLastD d₂
  | [], h, _, _ => absurd rfl h
  | _ :: _, _, _, _ => by simp only [List.getLastD_cons]

/-- `getLastD` of a nonempty list is an element. -/
theorem getLastD_mem_of_ne_nil {α : Type} :
    ∀ (l : List α), l ≠ [] → ∀ d : α, l.getLastD d ∈ l
  | [], h, _ => absurd rfl h
  | [a], _, d => by simp [List.getLastD_cons]
  | a :: b :: t, _, d => by
    rw [List.getLastD_cons]
    exact List.mem_cons_of_mem _ (getLastD_mem_of_ne_nil (b :: t) (by simp) a)

/-- Every piece produced by `splitCh sep` is separator-free. -/
theorem mem_splitCh_not_mem (sep : Char) :
    ∀ (l x : List Char), x ∈ splitCh sep l → sep ∉ x := by
  intro l
  induction l with
  | nil =>
    intro x hx
    simp [splitCh] at hx
    simp [hx]
  | cons c cs ih =>
    intro x hx
    by_cases hc : c = sep
    · subst hc
      simp only [splitCh, if_pos rfl] at hx
      rcases List.mem_cons.mp hx with h1 | h2
      · subst h1; simp
      · exact ih x h2
    · simp only [splitCh, if_neg hc] at hx
      cases hsp : splitCh sep cs with
      | nil => exact absurd hsp (splitCh_ne_nil sep cs)
      | cons s ss =>
        rw [hsp] at hx
        have hs : s ∈ splitCh sep cs := by
          rw [hsp]
          exact List.mem_cons_self s ss
        rcases List.mem_cons.mp hx with h1 | h2
        · subst h1
          intro hmem
          rcases List.mem_cons.mp hmem with h3 | h4
          · exact hc h3.symm
          · exact ih s hs h4
        · refine ih x ?_
          rw [hsp]
          exact List.mem_cons_of_mem s h2

/-- `listContainsSub` with a single-character pattern is membership. -/
theorem listContainsSub_singleton (c : Char) :
    ∀ l, listContainsSub [c] l = true ↔ c ∈ l := by
  intro l
  induction l with
  | nil => simp [listContainsSub]
  | cons d rest ih =>
    simp [listContainsSub, List.isPrefixOf, ih, List.mem_cons]

/-- `strContains s "/"` decides slash membership in the characters. -/
theorem strContains_slash (s : String) :
    strContains s "/" = true ↔ '/' ∈ s.data :=
  listContainsSub_singleton '/' s.data

/-- The scheme check and the 8-character drop, for any URI whose characters
start with `asset://`. -/
theorem strStartsWith_asset (x y : String)
    (h : x.data = "asset://".data ++ y.data) :
    strStartsWith x "asset://" = true ∧ x.data.drop 8 = y.data := by
  constructor
  · rw [strStartsWith, h, List.isPrefixOf_iff_prefix]
    exact List.prefix_append _ _
  · have hlen : ("asset://".data).length = 8 := rfl
    rw [h, ← hlen]
    exact List.drop_left _ _

/-- `parseAssetPath` on `seg/rest` with a nonempty `/`-free head segment and
a nonempty remainder captures the optional type group. -/
theorem parseAssetPath_sep (a b : List Char) (ha : a ≠ []) (has : '/' ∉ a)
    (hb : b ≠ []) :
    parseAssetPath (a ++ '/' :: b) = some (some (String.mk a), String.mk b) := by
  cases a with
  | nil => exact absurd rfl ha
  | cons c cs =>
    cases b with
    | nil => exact absurd rfl hb
    | cons e es =>
      have hseg : ((c :: cs) ++ '/' :: e :: es).takeWhile (fun ch => ch != '/') =
          c :: cs :=
        takeWhile_append_sep _ _ _ (fun x hx => by
          have hx' : x ≠ '/' := fun hxe => has (hxe ▸ hx)
          simpa using hx') (by simp)
      have hdrop : ((c :: cs) ++ '/' :: e :: es).drop (c :: cs).length =
          '/' :: e :: es :=
        List.drop_left _ _
      simp only [List.cons_append] at hseg hdrop
      simp [parseAssetPath, hseg, hdrop]

/-- `parseAssetPath` on a nonempty `/`-free remainder yields a bare id. -/
theorem parseAssetPath_nosep (a : List Char) (ha : a ≠ []) (has : '/' ∉ a) :
    parseAssetPath a = some (none, String.mk a) := by
  cases a with
  | nil => exact absurd rfl ha
  | cons c cs =>
    have hseg : (c :: cs).takeWhile (fun ch => ch != '/') = c :: cs :=
      takeWhile_all (fun x hx => by
        have hx' : x ≠ '/' := fun hxe => has (hxe ▸ hx)
        simpa using hx')
    have hdrop : (c :: cs).drop (c :: cs).length = [] := by simp
    simp [parseAssetPath, hseg, hdrop]

/-- Parsing the type-prefixed URI form `asset://ty/f`. -/
theorem parseResourceUri_typed (ty f : String) (hty : ty ≠ "") (hf : f ≠ "")
    (htys : '/' ∉ ty.data) :
    parseResourceUri ("asset://" ++ ty ++ "/" ++ f) = some (some ty, f) := by
  have hdata : ("asset://" ++ ty ++ "/" ++ f).data =
      "asset://".data ++ (String.mk (ty.data ++ '/' :: f.data)).data := by
    simp [String.data_append]
  obtain ⟨h1, h2⟩ := strStartsWith_asset _ _ hdata
  unfold parseResourceUri
  rw [h2, h1, if_pos rfl]
  exact parseAssetPath_sep ty.data f.data
    (fun hnil => hty (congrArg String.mk hnil)) htys
    (fun hnil => hf (congrArg String.mk hnil))

/-- Parsing the bare URI form `asset://f`. -/
theorem parseResourceUri_bare (f : String) (hf : f ≠ "") (hfs : '/' ∉ f.data) :
    parseResourceUri ("asset://" ++ f) = some (none, f) := by
  have hdata : ("asset://" ++ f).data = "asset://".data ++ f.data := by
    simp [String.data_append]
  obtain ⟨h1, h2⟩ := strStartsWith_asset _ f hdata
  unfold parseResourceUri
  rw [h2, h1, if_pos rfl]
  exact parseAssetPath_nosep f.data (fun hnil => hf (congrArg String.mk hnil)) hfs

/-- Evaluation of the read handler once the URI has been parsed. -/
theorem readResource_eval (dir uri : String) (t : Option String) (id : String)
    (hscheme : strStartsWith uri "asset://" = true)
    (hparse : parseResourceUri uri = some (t, id)) :
    readResource dir uri =
      (if !strStartsWith (pathJoin dir (actualFilename (readFilename t id))) dir
        then ReadOutcome.securityViolation
        else .access (pathJoin dir (actualFilename (readFilename t id)))) := by
  unfold readResource
  rw [hscheme, if_pos rfl, hparse]

/-- C6: for every `/`-free stored filename `f` and nonempty `/`-free type
tag, the type-prefixed URI `asset://ty/f` and the bare URI `asset://f`
resolve through the read handler to the same outcome; when the joined path
passes the guard, both access the identical file `pathJoin dir f`. -/
theorem readResource_uri_forms_c6 :
    ∀ (dir ty f : String), ty ≠ "" → f ≠ "" → '/' ∉ ty.data → '/' ∉ f.data →
      readResource dir ("asset://" ++ ty ++ "/" ++ f) =
        readResource dir ("asset://" ++ f) ∧
      (strStartsWith (pathJoin dir f) dir = true →
        readResource dir ("asset://" ++ ty ++ "/" ++ f) =
          .access (pathJoin dir f)) := by
  intro dir ty f hty hf htys hfs
  have hdata1 : ("asset://" ++ ty ++ "/" ++ f).data =
      "asset://".data ++ (String.mk (ty.data ++ '/' :: f.data)).data := by
    simp [String.data_append]
  have hdata2 : ("asset://" ++ f).data = "asset://".data ++ f.data := by
    simp [String.data_append]
  have h1 := (strStartsWith_asset _ _ hdata1).1
  have h2 := (strStartsWith_asset _ f hdata2).1
  have hcontains_f : strContains f "/" = false := by
    rw [← Bool.not_eq_true]
    intro hc
    exact hfs ((strContains_slash f).mp hc)
  have hfn : readFilename (some ty) f = ty ++ "/" ++ f := by
    simp [readFilename, hcontains_f]
  have hfn_data : (ty ++ "/" ++ f).data = ty.data ++ '/' :: f.data := by
    simp [String.data_append]
  have hcontains_fn : strContains (ty ++ "/" ++ f) "/" = true :=
    (strContains_slash _).mpr (by
      rw [hfn_data]
      exact List.mem_append_right _ (List.mem_cons_self _ _))
  have hlast : lastSegOf '/' (ty ++ "/" ++ f).data = f.data := by
    rw [lastSegOf, hfn_data, splitCh_append_sep '/' ty.data f.data htys,
      splitCh_of_not_mem hfs]
    rfl
  have hactual_typed : actualFilename (readFilename (some ty) f) = f := by
    rw [hfn]
    unfold actualFilename
    rw [hcontains_fn, if_pos rfl, hlast]
  have hactual_bare : actualFilename (readFilename none f) = f := by
    unfold readFilename actualFilename
    rw [hcontains_f]
    simp
  rw [readResource_eval dir _ _ _ h1 (parseResourceUri_typed ty f hty hf htys),
    readResource_eval dir _ _ _ h2 (parseResourceUri_bare f hf hfs),
    hactual_typed, hactual_bare]
  refine ⟨rfl, fun hok => ?_⟩
  rw [hok]
  simp

/-- Witness for C6 on the spec's example pair
`asset://3d_model/x.glb` / `asset://x.glb`. -/
theorem readResource_uri_forms_c6_witness :
    readResource "/w/assets" ("asset://" ++ "3d_model" ++ "/" ++ "x.glb") =
      readResource "/w/assets" ("asset://" ++ "x.glb") ∧
    readResource "/w/assets" ("asset://" ++ "3d_model" ++ "/" ++ "x.glb") =
      .access (pathJoin "/w/assets" "x.glb") := by
  obtain ⟨hboth, hacc⟩ := readResource_uri_forms_c6 "/w/assets" "3d_model" "x.glb"
    (by decide) (by decide) (by decide) (by decide)
  exact ⟨hboth, hacc rfl⟩

/-- `normStep` never introduces an empty segment. -/
theorem normStep_no_nil {acc : List (List Char)} (h : [] ∉ acc)
    (seg : List Char) : [] ∉ normStep acc seg := by
  by_cases h1 : seg = []
  · simpa [normStep, h1] using h
  · by_cases h2 : seg = ['.']
    · simpa [normStep, h2] using h
    · by_cases h3 : seg = ['.', '.']
      · simp only [normStep, h1, h2, h3, decide_True, decide_False,
          Bool.or_false, Bool.false_or, if_false, if_true]
        intro hm
        exact h (List.dropLast_subset _ hm)
      · simp only [normStep, h1, h2, h3, decide_False, Bool.or_self, if_false]
        intro hm
        rcases List.mem_append.mp hm with h4 | h5
        · exact h h4
        · exact h1 (List.mem_singleton.mp h5).symm

/-- Normalized segment lists contain no empty segment. -/
theorem normSegs_no_nil (l : List (List Char)) : [] ∉ normSegs l := by
  suffices h : ∀ acc : List (List Char), [] ∉ acc → [] ∉ l.foldl normStep acc by
    exact h [] (by simp)
  induction l with
  | nil =>
    intro acc h
    simpa using h
  | cons s rest ih =>
    intro acc h
    exact ih _ (normStep_no_nil h s)

/-- Joining distributes over appending one more segment. -/
theorem joinSegs_append_singleton :
    ∀ (M : List (List Char)) (a : List Char), M ≠ [] →
      joinSegs (M ++ [a]) = joinSegs M ++ '/' :: a
  | [], _, h => absurd rfl h
  | [b], a, _ => by simp [joinSegs]
  | b :: c :: t, a, _ => by
    have ih := joinSegs_append_singleton (c :: t) a (by simp)
    simp only [List.cons_append, joinSegs] at ih ⊢
    simp [ih, List.append_assoc]

/-- Rendering distributes over appending one more segment. -/
theorem renderAbs_append_singleton (M : List (List Char)) (a : List Char)
    (hM : M ≠ []) : renderAbs (M ++ [a]) = renderAbs M ++ '/' :: a := by
  unfold renderAbs
  rw [joinSegs_append_singleton M a hM]
  rfl

/-- Appending one nonempty segment strictly lengthens the rendering. -/
theorem renderAbs_length_lt_append (M : List (List Char)) (x : List Char)
    (hx : x ≠ []) : (renderAbs M).length < (renderAbs (M ++ [x])).length := by
  by_cases hM : M = []
  · subst hM
    simp [renderAbs, joinSegs]
    exact List.length_pos.mpr hx
  · rw [renderAbs_append_singleton M x hM]
    simp

/-- Dropping the last of a nonempty normalized segment list strictly
shortens the rendered path. -/
theorem renderAbs_dropLast_length_lt (N : List (List Char)) (hN : N ≠ [])
    (hnn : [] ∉ N) : (renderAbs N.dropLast).length < (renderAbs N).length := by
  have hlast := List.dropLast_append_getLast hN
  have hlast_ne : N.getLast hN ≠ [] := fun hh => hnn (hh ▸ List.getLast_mem hN)
  have h' := renderAbs_length_lt_append N.dropLast (N.getLast hN) hlast_ne
  rw [hlast] at h'
  exact h' 

/-- A normal absolute directory equals its re-rendered normalization. -/
theorem normalAbs_destruct (dir : String) (hnorm : isNormalAbs dir = true) :
    dir.data = renderAbs (normSegs (splitCh '/' dir.data)) := by
  have h := beq_iff_eq.mp hnorm
  exact (congrArg String.data h).symm

/-- A normal absolute directory other than the root has at least one
segment. -/
theorem normalAbs_ne_nil (dir : String) (hnorm : isNormalAbs dir = true)
    (hroot : dir ≠ "/") : normSegs (splitCh '/' dir.data) ≠ [] := by
  intro h
  apply hroot
  have hd := normalAbs_destruct dir hnorm
  rw [h] at hd
  exact congrArg String.mk hd

/-- Joining a single `/`-free name reduces to one normalization step. -/
theorem pathJoin_single (dir s : String) (hs : '/' ∉ s.data) :
    pathJoin dir s =
      String.mk (renderAbs (normStep (normSegs (splitCh '/' dir.data)) s.data)) := by
  unfold pathJoin normSegs
  rw [splitCh_of_not_mem hs, List.foldl_append]
  rfl

/-- Joining `""` or `"."` onto a normal directory is the identity. -/
theorem pathJoin_dot (dir s : String) (hnorm : isNormalAbs dir = true)
    (hs : '/' ∉ s.data) (h : s.data = [] ∨ s.data = ['.']) :
    pathJoin dir s = dir := by
  have hd := normalAbs_destruct dir hnorm
  rw [pathJoin_single dir s hs]
  have hstep : normStep (normSegs (splitCh '/' dir.data)) s.data =
      normSegs (splitCh '/' dir.data) := by
    rcases h with h | h <;> simp [normStep, h]
  rw [hstep]
  exact (congrArg String.mk hd).symm

/-- Joining `".."` onto a normal non-root directory leaves its string
prefix, so the `startsWith` guard fails. -/
theorem pathJoin_dotdot (dir s : String) (hnorm : isNormalAbs dir = true)
    (hroot : dir ≠ "/") (h : s.data = ['.', '.']) :
    strStartsWith (pathJoin dir s) dir = false := by
  have hs : '/' ∉ s.data := by
    rw [h]
    decide
  have hd := normalAbs_destruct dir hnorm
  have hN := normalAbs_ne_nil dir hnorm hroot
  rw [pathJoin_single dir s hs, h]
  have hstep : normStep (normSegs (splitCh '/' dir.data)) ['.', '.'] =
      (normSegs (splitCh '/' dir.data)).dropLast := by
    simp [normStep]
  rw [hstep]
  have hlt := renderAbs_dropLast_length_lt _ hN
    (normSegs_no_nil (splitCh '/' dir.data))
  cases hb : strStartsWith
      (String.mk (renderAbs (normSegs (splitCh '/' dir.data)).dropLast)) dir
  · rfl
  · exfalso
    rw [strStartsWith] at hb
    have hb' : dir.data.isPrefixOf
        (renderAbs (normSegs (splitCh '/' dir.data)).dropLast) = true := hb
    have hle := (List.isPrefixOf_iff_prefix.mp hb').length_le
    have hdlen : dir.data.length =
        (renderAbs (normSegs (splitCh '/' dir.data))).length :=
      congrArg List.length hd
    omega

/-- Joining an ordinary `/`-free name onto a normal non-root directory
appends one path component. -/
theorem pathJoin_plain (dir s : String) (hnorm : isNormalAbs dir = true)
    (hroot : dir ≠ "/") (hs : '/' ∉ s.data) (h0 : s.data ≠ [])
    (h1 : s.data ≠ ['.']) (h2 : s.data ≠ ['.', '.']) :
    pathJoin dir s = dir ++ "/" ++ s := by
  have hd := normalAbs_destruct dir hnorm
  have hN := normalAbs_ne_nil dir hnorm hroot
  rw [pathJoin_single dir s hs]
  have hstep : normStep (normSegs (splitCh '/' dir.data)) s.data =
      normSegs (splitCh '/' dir.data) ++ [s.data] := by
    simp [normStep, h0, h1, h2]
  rw [hstep, renderAbs_append_singleton _ _ hN]
  have hdata : (dir ++ "/" ++ s).data =
      renderAbs (normSegs (splitCh '/' dir.data)) ++ '/' :: s.data := by
    rw [← hd]
    simp [String.data_append]
  exact (congrArg String.mk hdata).symm

/-- Appending never breaks a `startsWith` check on the left part. -/
theorem strStartsWith_append_self (d s : String) :
    strStartsWith (d ++ s) d = true := by
  rw [strStartsWith, String.data_append, List.isPrefixOf_iff_prefix]
  exact List.prefix_append _ _

/-- The head of a nonempty `dropWhile` residue fails the predicate. -/
theorem dropWhile_head_false {p : Char → Bool} :
    ∀ (l : List Char) (c : Char) (t : List Char),
      l.dropWhile p = c :: t → p c = false := by
  intro l
  induction l with
  | nil =>
    intro c t h
    simp at h
  | cons d ds ih =>
    intro c t h
    by_cases hd : p d = true
    · rw [List.dropWhile_cons, if_pos hd] at h
      exact ih c t h
    · rw [List.dropWhile_cons, if_neg hd] at h
      have h1 : d = c := (List.cons.inj h).1
      subst h1
      cases hb : p d
      · rfl
      · exact absurd hb hd

/-- The last `sep`-separated segment contains no separator. -/
theorem lastSegOf_not_mem (sep : Char) (l : List Char) :
    sep ∉ lastSegOf sep l := by
  unfold lastSegOf
  exact mem_splitCh_not_mem sep l _
    (getLastD_mem_of_ne_nil _ (splitCh_ne_nil sep l) [])

/-- Whatever the URI, the resolved filename is a single `/`-free segment. -/
theorem actualFilename_no_slash (fn : String) :
    '/' ∉ (actualFilename fn).data := by
  unfold actualFilename
  by_cases h : strContains fn "/" = true
  · rw [h, if_pos rfl]
    exact lastSegOf_not_mem '/' fn.data
  · have hf : strContains fn "/" = false := by
      cases hb : strContains fn "/"
      · rfl
      · exact absurd hb h
    rw [hf]
    simp only [Bool.false_eq_true, if_false]
    exact fun hm => h ((strContains_slash fn).mpr hm)

/-- Whatever the parse outcome, the handler's resolved filename is exactly
the last `/`-separated segment of the URI's path part. -/
theorem parseAssetPath_lastSeg (rest : List Char) (t : Option String)
    (id : String) (h : parseAssetPath rest = some (t, id)) :
    actualFilename (readFilename t id) = String.mk (lastSegOf '/' rest) := by
  cases rest with
  | nil => simp [parseAssetPath] at h
  | cons c cs =>
    have hpre : (c :: cs).takeWhile (fun ch => ch != '/') ++
        (c :: cs).dropWhile (fun ch => ch != '/') = c :: cs :=
      List.takeWhile_append_dropWhile _ _
    have hdropeq : (c :: cs).drop
        ((c :: cs).takeWhile (fun ch => ch != '/')).length =
        (c :: cs).dropWhile (fun ch => ch != '/') := by
      have h0 := List.drop_left ((c :: cs).takeWhile (fun ch => ch != '/'))
        ((c :: cs).dropWhile (fun ch => ch != '/'))
      rw [hpre] at h0
      exact h0
    have hseg_no : '/' ∉ (c :: cs).takeWhile (fun ch => ch != '/') := by
      intro hm
      have := List.mem_takeWhile_imp hm
      simp at this
    simp only [parseAssetPath] at h
    by_cases hempty : ((c :: cs).takeWhile (fun ch => ch != '/')).isEmpty = true
    · rw [hempty, if_pos rfl] at h
      obtain ⟨rfl, rfl⟩ : none = t ∧ String.mk (c :: cs) = id := by
        have := Option.some.inj h
        exact ⟨congrArg Prod.fst this, congrArg Prod.snd this⟩
      have hc : c = '/' := by
        by_cases hpc : (c != '/') = true
        · rw [List.takeWhile_cons, if_pos hpc] at hempty
          simp at hempty
        · simpa using hpc
      have hcont : strContains (String.mk (c :: cs)) "/" = true :=
        (strContains_slash _).mpr (by
          rw [hc]
          exact List.mem_cons_self _ _)
      unfold readFilename actualFilename
      rw [hcont, if_pos rfl]
    · have hempty' : ((c :: cs).takeWhile (fun ch => ch != '/')).isEmpty = false := by
        cases hb : ((c :: cs).takeWhile (fun ch => ch != '/')).isEmpty
        · rfl
        · exact absurd hb hempty
      rw [hempty'] at h
      simp only [Bool.false_eq_true, if_false] at h
      rw [hdropeq] at h
      cases hdw : (c :: cs).dropWhile (fun ch => ch != '/') with
      | nil =>
        rw [hdw] at h
        obtain ⟨rfl, rfl⟩ : none = t ∧ String.mk (c :: cs) = id := by
          have := Option.some.inj h
          exact ⟨congrArg Prod.fst this, congrArg Prod.snd this⟩
        have hall : (c :: cs).takeWhile (fun ch => ch != '/') = c :: cs := by
          rw [hdw, List.append_nil] at hpre
          exact hpre
        have hnos : '/' ∉ (c :: cs) := by
          intro hm
          apply hseg_no
          rw [hall]
          exact hm
        have hcont : strContains (String.mk (c :: cs)) "/" = false := by
          cases hb : strContains (String.mk (c :: cs)) "/"
          · rfl
          · exact absurd ((strContains_slash _).mp hb) hnos
        unfold readFilename actualFilename
        rw [hcont]
        simp only [Bool.false_eq_true, if_false]
        rw [lastSegOf, splitCh_of_not_mem hnos]
        rfl
      | cons c' tl =>
        have hc' : c' = '/' := by
          have := dropWhile_head_false (c :: cs) c' tl hdw
          simpa using this
        subst hc'
        rw [hdw] at h
        dsimp only [] at h
        rw [if_pos rfl] at h
        by_cases htl : tl.isEmpty = true
        · rw [htl, if_pos rfl] at h
          obtain ⟨rfl, rfl⟩ : none = t ∧ String.mk (c :: cs) = id := by
            have := Option.some.inj h
            exact ⟨congrArg Prod.fst this, congrArg Prod.snd this⟩
          have hmem : '/' ∈ (c :: cs) := by
            rw [← hpre, hdw]
            exact List.mem_append_right _ (List.mem_cons_self _ _)
          have hcont : strContains (String.mk (c :: cs)) "/" = true :=
            (strContains_slash _).mpr hmem
          unfold readFilename actualFilename
          rw [hcont, if_pos rfl]
        · have htl' : tl.isEmpty = false := by
            cases hb : tl.isEmpty
            · rfl
            · exact absurd hb htl
          rw [htl'] at h
          simp only [Bool.false_eq_true, if_false] at h
          obtain ⟨rfl, rfl⟩ :
              some (String.mk ((c :: cs).takeWhile (fun ch => ch != '/'))) = t ∧
              String.mk tl = id := by
            have := Option.some.inj h
            exact ⟨congrArg Prod.fst this, congrArg Prod.snd this⟩
          have hrest : (c :: cs) =
              (c :: cs).takeWhile (fun ch => ch != '/') ++ '/' :: tl := by
            conv_lhs => rw [← hpre]
            rw [hdw]
          have htl_ne : (splitCh '/' tl) ≠ [] := splitCh_ne_nil '/' tl
          have hlast : lastSegOf '/' (c :: cs) = lastSegOf '/' tl := by
            rw [lastSegOf, hrest, splitCh_append_sep '/' _ tl hseg_no,
              List.getLastD_cons]
            exact getLastD_of_ne_nil htl_ne _ _
          unfold readFilename
          dsimp only []
          by_cases hid : strContains (String.mk tl) "/" = true
          · rw [if_pos hid]
            unfold actualFilename
            rw [hid, if_pos rfl, hlast]
          · have hid' : strContains (String.mk tl) "/" = false := by
              cases hb : strContains (String.mk tl) "/"
              · rfl
              · exact absurd hb hid
            rw [hid']
            simp only [Bool.false_eq_true, if_false]
            unfold actualFilename
            have hfn_data :
                (String.mk ((c :: cs).takeWhile (fun ch => ch != '/')) ++ "/" ++
                  String.mk tl).data =
                (c :: cs).takeWhile (fun ch => ch != '/') ++ '/' :: tl := by
              simp [String.data_append]
            have hcont : strContains
                (String.mk ((c :: cs).takeWhile (fun ch => ch != '/')) ++ "/" ++
                  String.mk tl) "/" = true :=
              (strContains_slash _).mpr (by
                rw [hfn_data]
                exact List.mem_append_right _ (List.mem_cons_self _ _))
            rw [hcont, if_pos rfl, hfn_data, ← hrest]

/-- C10: with a normal, non-root assets directory, every `asset://` read
resolves only the last `/`-separated segment of the URI's path part against
the assets directory; any resulting path outside the directory (only a
`..` segment can produce one) is rejected by the guard before any
filesystem access, so an `access` outcome always stays at or below the
assets directory — `asset://..` in particular is rejected. -/
theorem readResource_sandbox_c10 :
    ∀ (dir uri : String), isNormalAbs dir = true → dir ≠ "/" →
      (∀ p, readResource dir uri = .access p →
        p = dir ∨ strStartsWith p (dir ++ "/") = true) ∧
      (∀ t id, parseResourceUri uri = some (t, id) →
        actualFilename (readFilename t id) =
          String.mk (lastSegOf '/' (uri.data.drop 8))) ∧
      readResource dir "asset://.." = .securityViolation := by
  intro dir uri hnorm hroot
  refine ⟨?_, ?_, ?_⟩
  · intro p hacc
    unfold readResource at hacc
    by_cases hscheme : strStartsWith uri "asset://" = true
    · rw [hscheme, if_pos rfl] at hacc
      cases hparse : parseResourceUri uri with
      | none =>
        rw [hparse] at hacc
        cases hacc
      | some pr =>
        obtain ⟨t, id⟩ := pr
        rw [hparse] at hacc
        dsimp only [] at hacc
        have hsl : '/' ∉ (actualFilename (readFilename t id)).data :=
          actualFilename_no_slash _
        by_cases hchk : strStartsWith
            (pathJoin dir (actualFilename (readFilename t id))) dir = true
        · rw [hchk] at hacc
          simp only [Bool.not_true, Bool.false_eq_true, if_false] at hacc
          have hp : p = pathJoin dir (actualFilename (readFilename t id)) :=
            (ReadOutcome.access.inj hacc).symm
          by_cases h0 : (actualFilename (readFilename t id)).data = []
          · left
            rw [hp]
            exact pathJoin_dot dir _ hnorm hsl (Or.inl h0)
          · by_cases h1 : (actualFilename (readFilename t id)).data = ['.']
            · left
              rw [hp]
              exact pathJoin_dot dir _ hnorm hsl (Or.inr h1)
            · by_cases h2 : (actualFilename (readFilename t id)).data = ['.', '.']
              · exact absurd hchk (by
                  rw [pathJoin_dotdot dir _ hnorm hroot h2]
                  simp)
              · right
                rw [hp, pathJoin_plain dir _ hnorm hroot hsl h0 h1 h2]
                exact strStartsWith_append_self (dir ++ "/") _
        · have hchk' : strStartsWith
              (pathJoin dir (actualFilename (readFilename t id))) dir = false := by
            cases hb : strStartsWith
                (pathJoin dir (actualFilename (readFilename t id))) dir
            · rfl
            · exact absurd hb hchk
          rw [hchk'] at hacc
          simp only [Bool.not_false, if_true] at hacc
          cases hacc
    · have hscheme' : strStartsWith uri "asset://" = false := by
        cases hb : strStartsWith uri "asset://"
        · rfl
        · exact absurd hb hscheme
      rw [hscheme'] at hacc
      simp only [Bool.false_eq_true, if_false] at hacc
      cases hacc
  · intro t id hparse
    unfold parseResourceUri at hparse
    by_cases hscheme : strStartsWith uri "asset://" = true
    · rw [hscheme, if_pos rfl] at hparse
      exact parseAssetPath_lastSeg _ t id hparse
    · have hscheme' : strStartsWith uri "asset://" = false := by
        cases hb : strStartsWith uri "asset://"
        · rfl
        · exact absurd hb hscheme
      rw [hscheme'] at hparse
      simp at hparse
  · have hp : parseResourceUri "asset://.." = some (none, "..") := by rfl
    rw [readResource_eval dir "asset://.." none ".." (by rfl) hp]
    have hdd : strStartsWith (pathJoin dir (actualFilename (readFilename none ".."))) dir = false := by
      have hact : actualFilename (readFilename none "..") = ".." := by rfl
      rw [hact]
      exact pathJoin_dotdot dir ".." hnorm hroot rfl
    rw [hdd]
    rfl

/-- Witness for C10 at the runtime-shaped assets directory `/work/assets`. -/
theorem readResource_sandbox_c10_witness :
    ("/work/assets/x.glb" = "/work/assets" ∨
      strStartsWith "/work/assets/x.glb" ("/work/assets" ++ "/") = true) ∧
    actualFilename (readFilename (some "a") "b/x.glb") =
      String.mk (lastSegOf '/' (("asset://a/b/x.glb" : String).data.drop 8)) ∧
    readResource "/work/assets" "asset://.." = .securityViolation := by
  obtain ⟨hsec, hseg, hdots⟩ :=
    readResource_sandbox_c10 "/work/assets" "asset://a/b/x.glb" rfl (by decide)
  refine ⟨hsec "/work/assets/x.glb" rfl, hseg (some "a") "b/x.glb" rfl, hdots⟩

end GameAssetMcp
